import Mathlib

/-!
Verification of the hyperopic chess engine core against its design
specification.  The Rust sources under `engine/hyperopic/src` are embedded
shallowly: pure functions become Lean functions, the mutable tree search
becomes explicit state passing over a fuel-indexed step function, machine
integers become `Nat`/`Int` (the values involved never approach the 64-bit
boundaries relevant to the claims, except bitboards, which are masked
explicitly where complement is taken).

Modules of the repository that are not present in the source tree
(`position.rs`, `moves.rs`, `node.rs`, `constants.rs`, `board.rs`,
`search/moves.rs`, `search/quiescent.rs`) are modelled from the
specification; every such definition carries a doc comment starting with
`Modelled from the spec:`.  Primitive operations the search treats as
collaborators (static evaluation, move generation, make/unmake, terminal
detection) are abstracted into a `Primitives` record, exactly as the spec
scopes them out ("low-level move legality and make/unmake primitives" are
external collaborators).
-/

/-- Type aliases mirroring `lib.rs`: `pub type Side = usize;` etc.
Squares are numbered `H1 -> .. -> A1 -> H2 ... -> A8` per the comment in
`lib.rs`. -/
abbrev Side := Nat
abbrev Square := Nat
abbrev Board := Nat
abbrev ChessClass := Nat
abbrev Piece := Nat
abbrev Corner := Nat

/-- Modelled from the spec: `constants.rs` is absent from the source tree.
The `class` constants index the six piece classes; only injectivity of the
encoding and the identity of the pawn class matter to the claims. -/
def classP : ChessClass := 0

/-- Modelled from the spec: knight class constant (`constants.rs` absent). -/
def classN : ChessClass := 1

/-- Modelled from the spec: bishop class constant (`constants.rs` absent). -/
def classB : ChessClass := 2

/-- Modelled from the spec: rook class constant (`constants.rs` absent). -/
def classR : ChessClass := 3

/-- Modelled from the spec: queen class constant (`constants.rs` absent). -/
def classQ : ChessClass := 4

/-- Modelled from the spec: king class constant (`constants.rs` absent). -/
def classK : ChessClass := 5

/-- Modelled from the spec: `create_piece(side, class)` from the absent
`constants.rs`; pieces are the twelve values `6 * side + class` (a
`PieceMap` is `[T; 12]` in `lib.rs`). -/
def create_piece (s : Side) (c : ChessClass) : Piece := 6 * s + c

/-- Modelled from the spec: `in_board` from the absent `constants.rs`,
bitboard membership of a square (bit test on the `u64` board). -/
def in_board (b : Board) (sq : Square) : Bool := Nat.testBit b sq

/-- Modelled from the spec: `count_ones` of a `u64` bitboard — the number
of set bits among the 64 bit positions. -/
def count_ones (b : Board) : Nat := (List.range 64).countP (fun i => Nat.testBit b i)

/-- Modelled from the spec: bitwise complement of a `u64` bitboard
(`!b` in Rust), masked to 64 bits. -/
def bit_not64 (b : Board) : Board := Nat.xor (2 ^ 64 - 1) (Nat.land b (2 ^ 64 - 1))

/-- Modelled from the spec: numeric contract of `node.rs` (absent): `INFTY`
is strictly greater than any achievable evaluation, `WIN_VALUE = -LOSS_VALUE`,
`DRAW_VALUE = 0`.  The exact magnitudes are irrelevant to every claim. -/
def INFTY : Int := 1048576

/-- Modelled from the spec: checkmate score saturation value (`node.rs` absent). -/
def WIN_VALUE : Int := 524288

/-- Modelled from the spec: `LOSS_VALUE = -WIN_VALUE` (`node.rs` absent). -/
def LOSS_VALUE : Int := -WIN_VALUE

/-- Modelled from the spec: `DRAW_VALUE = 0` (`node.rs` absent). -/
def DRAW_VALUE : Int := 0

/-- The move representation of `moves.rs` (absent from the source tree).
Modelled from the spec: tagged variants
`Normal{piece, from, to, captured?}`, `Enpassant{from, to, capture_square}`,
`Castle{corner}`, `Promote{from, to, captured?, promoted_class}` and `Null`,
with payload names as used by `search/search.rs`. -/
inductive Move where
  | Null : Move
  | Normal (moving : Piece) (src : Square) (dest : Square) (capture : Option Piece) : Move
  | Enpassant (src : Square) (dest : Square) (capture : Square) : Move
  | Castle (corner : Corner) : Move
  | Promote (src : Square) (dest : Square) (capture : Option Piece) (promoted : ChessClass) : Move
deriving DecidableEq, Repr

/-- Modelled from the spec: `Move::is_repeatable` (from the absent
`moves.rs`): repetition detection walks history "while the encountered moves
are repeatable (not pawn moves, not captures, not castling)". -/
def Move.is_repeatable : Move → Bool
  | .Null => true
  | .Normal moving _ _ capture => decide (moving % 6 ≠ classP) && capture.isNone
  | .Enpassant _ _ _ => false
  | .Castle _ => false
  | .Promote _ _ _ _ => false

/-- Modelled from the spec: the unmake snapshot stored in the position
history: "captured piece, prior rights, prior en-passant, prior clock,
prior key". -/
structure Snapshot where
  captured : Option Piece
  rights : Corner → Bool
  enpassant : Option Square
  clock : Nat
  key : Nat

/-- The position attributes from the spec's data model that the claims
touch (`position.rs` is absent from the source tree): side to move,
per-piece and per-side bitboards, per-square occupancy, castling rights,
en-passant target, fifty-move clock, Zobrist key and the unmake history. -/
structure Position where
  active : Side
  enpassant : Option Square
  castling_rights : Corner → Bool
  piece_locs : Square → Option Piece
  piece_boards : Piece → Board
  side_boards : Side → Board
  clock : Nat
  key : Nat
  history : List (Snapshot × Move)

/-- Modelled from the spec: `Position::friendly_enemy_boards` (the occupancy
of the side to move and of its opponent), used by `is_pseudo_legal`. -/
def Position.friendly_enemy_boards (p : Position) : Board × Board :=
  (p.side_boards p.active, p.side_boards (1 - p.active))

/-- The search tree node of `node.rs` (absent): owns a `Position` plus an
incrementally updated evaluator state.  Only the position is observable by
the claims, so the evaluator state is not carried. -/
structure TreeNode where
  position : Position

/-- Terminal states distinguished by `Position::compute_terminal_state`,
as matched in `search/search.rs`. -/
inductive TerminalState where
  | Loss : TerminalState
  | Draw : TerminalState
deriving DecidableEq, Repr

/-- Modelled from the spec: one castling corner's king and rook lines
(start square, end square), from the absent `position.rs`
(`CASTLING_DETAILS[corner]` with fields `king_line` and `rook_line`). -/
structure CastlingDetails where
  king_line : Square × Square
  rook_line : Square × Square

/-- Modelled from the spec: the `CASTLING_DETAILS` table for the four
corners (order WK, WQ, BK, BQ) under the square numbering
`H1 = 0, .., A1 = 7, .., H8 = 56, .., A8 = 63` from `lib.rs`; pseudo-legal
castling requires "both the king and rook still on their start squares". -/
def CASTLING_DETAILS : Corner → CastlingDetails
  | 0 => ⟨(3, 1), (0, 2)⟩
  | 1 => ⟨(3, 5), (7, 4)⟩
  | 2 => ⟨(59, 57), (56, 58)⟩
  | _ => ⟨(59, 61), (63, 60)⟩

/-! ## Transposition table (`search/table.rs`) -/

/-- `NodeType` from `search/table.rs`: exact nodes remember the principal
continuation, cut and all nodes remember the distinguished move. -/
inductive NodeType where
  | Pv (path : List Move) : NodeType
  | Cut (m : Move) : NodeType
  | All (m : Move) : NodeType
deriving DecidableEq, Repr

/-- `TableEntry` from `search/table.rs`. -/
structure TableEntry where
  root_index : Nat
  key : Nat
  depth : Nat
  eval : Int
  node_type : NodeType
deriving DecidableEq, Repr

/-- `TranspositionsImpl` from `search/table.rs`: a fixed vector of buckets,
each holding at most one entry.  The per-bucket mutexes serialise access in
Rust; the sequential model drops them. -/
structure TranspositionsImpl where
  inner : List (Option TableEntry)
deriving DecidableEq

/-- Bucket index: `(k % self.inner.len() as u64) as usize`. -/
def TranspositionsImpl.index (t : TranspositionsImpl) (k : Nat) : Nat :=
  k % t.inner.length

/-- `get`: the stored entry of the key's bucket, filtered on key equality. -/
def TranspositionsImpl.get (t : TranspositionsImpl) (pos : Position) : Option TableEntry :=
  match t.inner.get? (t.index pos.key) with
  | some (some e) => if e.key == pos.key then some e else none
  | _ => none

/-- `put`: unconditionally replace the bucket contents. -/
def TranspositionsImpl.put (t : TranspositionsImpl) (pos : Position)
    (root_index : Nat) (depth : Nat) (eval : Int) (node_type : NodeType) :
    TranspositionsImpl :=
  ⟨t.inner.set (t.index pos.key)
    (some ⟨root_index, pos.key, depth, eval, node_type⟩)⟩

/-- `reset`: clear all buckets. -/
def TranspositionsImpl.reset (t : TranspositionsImpl) : TranspositionsImpl :=
  ⟨t.inner.map (fun _ => none)⟩

/-! ## Principal variation (`search/pv.rs`) -/

/-- `PrincipleVariation` from `search/pv.rs`: the best line from the
previous completed depth. -/
structure PrincipleVariation where
  path : List Move
deriving DecidableEq

/-- `get_next_move`: a pv of length `n` maps current depth `n + 1 - k` to
index `k` (`self.path.get((1 + self.path.len()) - curr_depth)`).  Rust's
`usize` subtraction would panic below zero in debug builds; the search only
calls this while walking down the pv, where the index is in range, so
truncating `Nat` subtraction is adequate. -/
def PrincipleVariation.get_next_move (pv : PrincipleVariation) (curr_depth : Nat) :
    Option Move :=
  pv.path.get? ((1 + pv.path.length) - curr_depth)

/-- `is_next_on_pv`: the candidate continues the principal variation. -/
def PrincipleVariation.is_next_on_pv (pv : PrincipleVariation) (curr_depth : Nat)
    (candidate : Move) : Bool :=
  pv.get_next_move curr_depth == some candidate

/-! ## Search context and responses (`search/search.rs`) -/

/-- `END_CHECK_FREQ` from `search/search.rs`. -/
def END_CHECK_FREQ : Nat := 1000

/-- `MIN_NULL_MOVE_REDUCTION` from `search/search.rs` ("Better results
compared to reduction of 3 or 4"). -/
def MIN_NULL_MOVE_REDUCTION : Nat := 5

/-- `Context` from `search/search.rs`: callstack information for the
traversal. -/
structure Context where
  root_index : Nat
  alpha : Int
  beta : Int
  depth : Nat
  known_raise_alpha : Option Move
  null_move_last : Bool
  on_pv : Bool
deriving DecidableEq

/-- `Context::next` from `search/search.rs`. -/
def Context.next (c : Context) (alpha beta : Int) (m : Move) (r : Nat)
    (on_pv : Bool) : Context :=
  { root_index := c.root_index
    alpha := alpha
    beta := beta
    depth := c.depth - min r c.depth
    known_raise_alpha := none
    null_move_last := (match m with | .Null => true | _ => false)
    on_pv := on_pv }

/-- `SearchResponse` from `search/search.rs`. -/
structure SearchResponse where
  eval : Int
  path : List Move
deriving DecidableEq, Repr

/-- A move decorated by the generator (`search/moves.rs` is absent from the
source tree).  The search only reads the move itself and `is_tactical()`,
so the decoration is carried as a boolean field. -/
structure SearchMove where
  m : Move
  tactical : Bool
deriving DecidableEq, Repr

/-- The collaborators of the tree search that live in modules absent from
the source tree (`position.rs`, `board.rs`, `node.rs`, `search/moves.rs`,
`search/quiescent.rs`) plus the end signal: terminal detection, check
detection, reachability under the piece move rules, quiescence, make (its
inverse unmake is implicit: the caller resumes from its own node, which the
spec's reversibility invariant makes exact), move generation, and the end
signal sampled at its successive polls. -/
structure Primitives where
  compute_terminal_state : Position → Option TerminalState
  in_check : Position → Bool
  board_moves : Piece → Square → Board → Board → Board
  quiescent : TreeNode → Int → Int → Except String Int
  make : TreeNode → Move → TreeNode
  generate : TreeNode → Context → List SearchMove
  should_end : Nat → Bool

/-- The mutable state of `TreeSearcher` threaded through the search: the
shared transposition table, the node counter, how many times the end signal
has been polled, and the pv-tracking debug counters. -/
structure SearcherState where
  table : TranspositionsImpl
  node_counter : Nat
  end_polls : Nat
  pv_node_count : Nat
  off_pv : Bool
deriving DecidableEq

/-- `reposition_last` from `search/search.rs`: find the last element
matching the predicate (`iter().rev().position`), remove it and push it to
the back. -/
def reposition_last {α : Type} (dest : List α) (matcher : α → Bool) : List α :=
  match dest.reverse.findIdx? matcher with
  | none => dest
  | some index =>
    let n := dest.length
    match dest.get? (n - 1 - index) with
    | some removed => dest.eraseIdx (n - 1 - index) ++ [removed]
    | none => dest

/-- `reposition_move_last` from `search/search.rs`. -/
def reposition_move_last (dest : List SearchMove) (m : Move) : List SearchMove :=
  reposition_last dest (fun sm => sm.m == m)

/-- `has_repetition` from `search/search.rs`: walk the history backwards
while the moves are repeatable and look for a key match. -/
def has_repetition (node : TreeNode) : Bool :=
  ((node.position.history.reverse.takeWhile (fun dm => dm.2.is_repeatable)).any
    (fun dm => dm.1.key == node.position.key))

/-- `is_pseudo_legal` from `search/search.rs`: shape-validation of a
table-suggested move against the current position. -/
def is_pseudo_legal (pr : Primitives) (node : TreeNode) (m : Move) : Bool :=
  let position := node.position
  match m with
  | .Null => false
  | .Enpassant _ _ capture => position.enpassant == some capture
  | .Castle corner =>
    position.castling_rights corner &&
      (let details := CASTLING_DETAILS corner
       let rook := create_piece position.active classR
       let king := create_piece position.active classK
       (position.piece_locs details.rook_line.1 == some rook) &&
         (position.piece_locs details.king_line.1 == some king))
  | .Normal moving src dest capture =>
    let fe := position.friendly_enemy_boards
    (position.piece_locs src == some moving) &&
      (position.piece_locs dest == capture) &&
      in_board (pr.board_moves moving src fe.1 fe.2) dest
  | .Promote src dest capture _ =>
    (position.piece_locs src == some (create_piece position.active classP)) &&
      (position.piece_locs dest == capture)

/-- `should_try_null_move_pruning` from `search/search.rs`: the zugzwang
guard — not in check, more than two pawns, more than one other piece. -/
def should_try_null_move_pruning (pr : Primitives) (node : TreeNode) : Bool :=
  let position := node.position
  !pr.in_check position &&
    (let pawns := position.piece_boards (create_piece position.active classP)
     let others := Nat.land (position.side_boards position.active) (bit_not64 pawns)
     decide (2 < count_ones pawns) && decide (1 < count_ones others))

/-- `TableLookup` from `search/search.rs`. -/
inductive TableLookup where
  | Miss : TableLookup
  | Suggestion (n : NodeType) : TableLookup
  | Hit (response : SearchResponse) : TableLookup
deriving DecidableEq

/-- `TreeSearcher::do_table_lookup` from `search/search.rs`: a stored entry
short-circuits the node only when deep enough, outside a repetition cycle,
with a pseudo-legal distinguished move, and (for bound entries) with an
eval outside the window; otherwise it is kept as an ordering suggestion. -/
def do_table_lookup (pr : Primitives) (table : TranspositionsImpl)
    (node : TreeNode) (ctx : Context) : TableLookup :=
  match table.get node.position with
  | none => .Miss
  | some existing =>
    match existing.node_type with
    | .Pv path =>
      if !has_repetition node && decide (ctx.depth ≤ existing.depth) &&
          decide (0 < path.length) &&
          (match path.head? with
           | some m => is_pseudo_legal pr node m
           | none => false) then
        .Hit ⟨min ctx.beta (max ctx.alpha existing.eval), path⟩
      else .Suggestion (.Pv path)
    | .Cut m =>
      if !has_repetition node && decide (ctx.depth ≤ existing.depth) &&
          decide (ctx.beta ≤ existing.eval) && is_pseudo_legal pr node m then
        .Hit ⟨ctx.beta, []⟩
      else .Suggestion (.Cut m)
    | .All m =>
      if !has_repetition node && decide (ctx.depth ≤ existing.depth) &&
          decide (existing.eval ≤ ctx.alpha) && is_pseudo_legal pr node m then
        .Hit ⟨ctx.alpha, []⟩
      else .Suggestion (.All m)

/-- `TreeSearcher::generate_moves` from `search/search.rs`: the generator's
worst-to-best list with the table suggestion, the known alpha-raiser and
the pv continuation each swapped to the back (in that order).  The Rust
code unwraps the first move of a `Pv` suggestion; an empty stored path
panics, modelled as an error. -/
def generate_moves (pr : Primitives) (pv : PrincipleVariation) (node : TreeNode)
    (ctx : Context) (table_entry : Option NodeType) :
    Except String (List SearchMove) :=
  let mvs := pr.generate node ctx
  let afterKra := fun (xs : List SearchMove) =>
    match ctx.known_raise_alpha with
    | some m => reposition_move_last xs m
    | none => xs
  let afterPv := fun (xs : List SearchMove) =>
    if ctx.on_pv then
      match pv.get_next_move ctx.depth with
      | some m => reposition_move_last xs m
      | none => xs
    else xs
  match table_entry with
  | none => .ok (afterPv (afterKra mvs))
  | some nt =>
    match (match nt with
           | .Pv path => path.head?
           | .Cut m => some m
           | .All m => some m) with
    | none => .error "panic: unwrap of first move of empty stored pv"
    | some m => .ok (afterPv (afterKra (reposition_move_last mvs m)))

/-- The pv-tracking debug bookkeeping at the top of `TreeSearcher::search`. -/
def pvTrack (st : SearcherState) (ctx : Context) : SearcherState :=
  if !st.off_pv then
    if ctx.on_pv then { st with pv_node_count := st.pv_node_count + 1 }
    else { st with off_pv := true }
  else st

/-- The periodic end-signal poll of `TreeSearcher::search`: bump the node
counter modulo `END_CHECK_FREQ` and poll the signal when it wraps. -/
def pollEnd (pr : Primitives) (st : SearcherState) : SearcherState × Bool :=
  let nc := (st.node_counter + 1) % END_CHECK_FREQ
  if nc == 0 then
    ({ st with node_counter := nc, end_polls := st.end_polls + 1 },
      pr.should_end st.end_polls)
  else ({ st with node_counter := nc }, false)

/-! ## The tree search (`TreeSearcher::search` in `search/search.rs`)

The Rust function is one recursive procedure containing a move loop with
`continue`-based re-search and a `break`-based early exit.  It is embedded
as a fuel-indexed step function over explicit phases: entering a node,
starting a move-loop iteration, folding a child response into the loop
variables, and the post-loop store/re-search.  Every recursive call runs at
the predecessor fuel, so the function is structurally recursive and fully
executable; theorems about `.ok` results hold for every fuel. -/

/-- The mutable locals of the move loop in `TreeSearcher::search`. -/
structure LoopVars where
  alpha : Int
  i : Nat
  research : Bool
  bestPath : List Move
  raisedAlpha : Bool
  score : Int
deriving DecidableEq

/-- The control point reached inside `TreeSearcher::search`: `node` is
entry, `loop` the top of a move-loop iteration, `update` the fold of a
child response (after `node.unmake()`) into the running score and alpha,
`step2` the beta-cutoff check and loop advance that follow it, and `post`
the code after the loop. -/
inductive SearchPhase where
  | node (node : TreeNode) (ctx : Context) : SearchPhase
  | loop (node : TreeNode) (ctx : Context) (startAlpha : Int) (isPvNode : Bool)
      (inCheck : Bool) (mvs : List SearchMove) (v : LoopVars) : SearchPhase
  | update (node : TreeNode) (ctx : Context) (startAlpha : Int) (isPvNode : Bool)
      (inCheck : Bool) (mvs : List SearchMove) (v : LoopVars) (r : Nat) (m : Move)
      (resp : SearchResponse) : SearchPhase
  | step2 (node : TreeNode) (ctx : Context) (startAlpha : Int) (isPvNode : Bool)
      (inCheck : Bool) (mvs : List SearchMove) (w : LoopVars) (m : Move) : SearchPhase
  | post (node : TreeNode) (ctx : Context) (startAlpha : Int) (isPvNode : Bool)
      (v : LoopVars) : SearchPhase

/-- The late-move-reduction computation at the top of the move loop. -/
def lmrReduction (research : Bool) (depth : Nat) (inCheck : Bool)
    (tactical : Bool) (isPvNode : Bool) (i : Nat) : Nat :=
  if !research && decide (1 < depth) && !inCheck && !tactical then
    if isPvNode then (if 5 < i then 2 else 1)
    else
      if i == 0 then 1
      else if i < 3 then 2
      else 1 + max 1 (depth / 3)
  else 1

/-- One fuel-indexed step family covering the whole of
`TreeSearcher::search`.  `.error` results cover the Rust error path
(termination by the end signal), the `unwrap` panics, and fuel exhaustion;
`.ok` results agree with the Rust function. -/
def run (pr : Primitives) (pv : PrincipleVariation) :
    Nat → SearcherState → SearchPhase → Except String (SearchResponse × SearcherState)
  | 0, _, _ => .error "fuel exhausted"
  | fuel + 1, st, ph =>
    match ph with
    | .node node ctx =>
      let st1 := pvTrack st ctx
      let polled := pollEnd pr st1
      if polled.2 then .error "terminated"
      else
        let st2 := polled.1
        let terminal := pr.compute_terminal_state node.position
        if ctx.depth == 0 || terminal.isSome then
          match terminal with
          | some .Loss =>
            .ok (⟨max ctx.alpha (min ctx.beta LOSS_VALUE), []⟩, st2)
          | some .Draw =>
            .ok (⟨max ctx.alpha (min ctx.beta DRAW_VALUE), []⟩, st2)
          | none =>
            match pr.quiescent node ctx.alpha ctx.beta with
            | .error e => .error e
            | .ok eval => .ok (⟨eval, []⟩, st2)
        else
          let afterLookup := fun (table_entry : Option NodeType) =>
            let is_pv_node : Bool :=
              (ctx.alpha == -INFTY) || ctx.on_pv || ctx.known_raise_alpha.isSome ||
                (match table_entry with | some (.Pv _) => true | _ => false)
            let proceed := fun (stp : SearcherState) =>
              match generate_moves pr pv node ctx table_entry with
              | .error e => .error e
              | .ok mvs =>
                run pr pv fuel stp
                  (.loop node ctx ctx.alpha is_pv_node (pr.in_check node.position) mvs
                    ⟨ctx.alpha, 0, false, [], false, -INFTY⟩)
            if !is_pv_node && !ctx.null_move_last && should_try_null_move_pruning pr node then
              match run pr pv fuel st2
                (.node (pr.make node .Null)
                  (ctx.next (-ctx.beta) (-ctx.beta + 1) .Null
                    (max MIN_NULL_MOVE_REDUCTION (ctx.depth / 3)) false)) with
              | .error e => .error e
              | .ok (resp, st3) =>
                if ctx.beta ≤ -resp.eval then .ok (⟨ctx.beta, []⟩, st3)
                else proceed st3
            else proceed st2
          match do_table_lookup pr st2.table node ctx with
          | .Hit response => .ok (response, st2)
          | .Miss => afterLookup none
          | .Suggestion n => afterLookup (some n)
    | .loop node ctx startAlpha isPvNode inCheck mvs v =>
      if v.i < mvs.length then
        let sm := mvs.getD (mvs.length - 1 - v.i) ⟨.Null, false⟩
        let m := sm.m
        let r := lmrReduction v.research ctx.depth inCheck sm.tactical isPvNode v.i
        let node' := pr.make node m
        if !v.raisedAlpha then
          let still_on_pv := ctx.on_pv && pv.is_next_on_pv ctx.depth m
          match run pr pv fuel st
            (.node node' (ctx.next (-ctx.beta) (-v.alpha) m r still_on_pv)) with
          | .error e => .error e
          | .ok (resp0, st') =>
            run pr pv fuel st'
              (.update node ctx startAlpha isPvNode inCheck mvs v r m
                ⟨-resp0.eval, resp0.path⟩)
        else
          match run pr pv fuel st
            (.node node' (ctx.next (-v.alpha - 1) (-v.alpha) m r false)) with
          | .error e => .error e
          | .ok (null0, st') =>
            if v.score < -null0.eval then
              match run pr pv fuel st'
                (.node node' (ctx.next (-ctx.beta) (-v.alpha) m r false)) with
              | .error e => .error e
              | .ok (full0, st'') =>
                run pr pv fuel st''
                  (.update node ctx startAlpha isPvNode inCheck mvs v r m
                    ⟨-full0.eval, full0.path⟩)
            else
              run pr pv fuel st'
                (.update node ctx startAlpha isPvNode inCheck mvs v r m
                  ⟨-null0.eval, null0.path⟩)
      else run pr pv fuel st (.post node ctx startAlpha isPvNode v)
    | .update node ctx startAlpha isPvNode inCheck mvs v r m resp =>
      if v.score < resp.eval then
        if 1 < r then
          run pr pv fuel st
            (.loop node ctx startAlpha isPvNode inCheck mvs { v with research := true })
        else
          if v.alpha < resp.eval then
            run pr pv fuel st
              (.step2 node ctx startAlpha isPvNode inCheck mvs
                ⟨resp.eval, v.i, v.research, m :: resp.path, true, resp.eval⟩ m)
          else
            run pr pv fuel st
              (.step2 node ctx startAlpha isPvNode inCheck mvs
                ⟨v.alpha, v.i, v.research, m :: resp.path, v.raisedAlpha, resp.eval⟩ m)
      else
        run pr pv fuel st (.step2 node ctx startAlpha isPvNode inCheck mvs v m)
    | .step2 node ctx startAlpha isPvNode inCheck mvs w m =>
      if ctx.beta ≤ w.alpha then
        .ok (⟨ctx.beta, []⟩,
          { st with table :=
              st.table.put node.position ctx.root_index ctx.depth ctx.beta (.Cut m) })
      else
        if !isPvNode && w.raisedAlpha then
          run pr pv fuel st
            (.post node ctx startAlpha isPvNode
              { w with i := w.i + 1, research := false })
        else
          run pr pv fuel st
            (.loop node ctx startAlpha isPvNode inCheck mvs
              { w with i := w.i + 1, research := false })
    | .post node ctx startAlpha isPvNode v =>
      if !isPvNode && v.raisedAlpha then
        run pr pv fuel st
          (.node node
            { ctx with alpha := startAlpha, known_raise_alpha := v.bestPath.head? })
      else
        if v.raisedAlpha then
          .ok (⟨v.alpha, v.bestPath⟩,
            { st with table :=
                (st.table.put node.position ctx.root_index ctx.depth v.score
                  (.Pv v.bestPath)) })
        else
          match v.bestPath.head? with
          | none => .error "panic: no best path at a non-terminal node"
          | some m0 =>
            .ok (⟨v.alpha, v.bestPath⟩,
              { st with table :=
                  (st.table.put node.position ctx.root_index ctx.depth v.score
                    (.All m0)) })

/-- `TreeSearcher::search`: enter the step family at a node. -/
def TreeSearcher.search (pr : Primitives) (pv : PrincipleVariation) (fuel : Nat)
    (st : SearcherState) (node : TreeNode) (ctx : Context) :
    Except String (SearchResponse × SearcherState) :=
  run pr pv fuel st (.node node ctx)

/-! ## Iterative deepening (`Search::search` in `search/mod.rs`) -/

/-- `BestMoveResponse` from `search/mod.rs`. -/
structure BestMoveResponse where
  eval : Int
  best_move : Move
  path : List Move
  depth : Nat
deriving DecidableEq, Repr

/-- The tail of `Search::best_move` in `search/mod.rs`: an empty optimal
path means the root position had no legal moves and is reported as an
error, otherwise its head is the best move. -/
def best_move_of (depth : Nat) (res : Except String SearchResponse) :
    Except String BestMoveResponse :=
  match res with
  | .error e => .error e
  | .ok r =>
    match r.path.head? with
    | none => .error "No moves for position"
    | some m => .ok ⟨r.eval, m, r.path, depth⟩

/-- The loop of `Search::search` in `search/mod.rs`, over the remaining
depths: a failing depth breaks out of the loop keeping its error; a
successful depth records its response, threads its path as the next
principal variation, and stops early on a forced mate
(`eval.abs() == WIN_VALUE`).  Afterwards the last recorded response is
returned, or the breaking error when no depth completed. -/
def deepeningLoop (f : Nat → PrincipleVariation → Except String BestMoveResponse) :
    List Nat → PrincipleVariation → Option BestMoveResponse → String →
    Except String BestMoveResponse
  | [], _, best, breakErr =>
    match best with
    | some r => .ok r
    | none => .error breakErr
  | d :: ds, pv, best, breakErr =>
    match f d pv with
    | .error e =>
      match best with
      | some r => .ok r
      | none => .error e
    | .ok r =>
      if r.eval.natAbs == WIN_VALUE.natAbs then .ok r
      else deepeningLoop f ds ⟨r.path⟩ (some r) breakErr

/-- `Search::search` from `search/mod.rs`: iterative deepening over depths
`1..=max_depth`, starting from an empty principal variation.  `f` abstracts
`Search::best_move` at one depth (the construction of the timed
`SearchOutcome` from the final `BestMoveResponse` carries no further
failure and is omitted). -/
def Search.search (f : Nat → PrincipleVariation → Except String BestMoveResponse)
    (maxDepth : Nat) : Except String BestMoveResponse :=
  deepeningLoop f ((List.range maxDepth).map (· + 1)) ⟨[]⟩ none
    "Terminated before search began"

/-! ## Engine coordinator (`Engine::compute_move_async` in `lib.rs`)

The coordinator spawns a single worker on its one-thread pool.  The worker
body is straight-line code; it is modelled as the ordered trace of its
observable actions so that ordering claims (availability released before
the completion callback) are statable. -/

/-- `SearchOutcome` from `search/mod.rs` (the elapsed time is carried as
milliseconds). -/
structure SearchOutcome where
  best_move : Move
  relative_eval : Int
  depth : Nat
  time : Nat
  optimal_path : List Move
deriving DecidableEq, Repr

/-- `ComputeMoveOutput` from `lib.rs`. -/
structure ComputeMoveOutput where
  best_move : Move
  search_details : Option SearchOutcome
deriving DecidableEq, Repr

/-- Decidable equality of `Except` results, needed to evaluate concrete
engine traces. -/
instance exceptDecidableEq {ε α : Type} [DecidableEq ε] [DecidableEq α] :
    DecidableEq (Except ε α) := fun a b =>
  match a, b with
  | .error e, .error f =>
    if h : e = f then .isTrue (by simp [h]) else .isFalse (by simp [h])
  | .ok x, .ok y =>
    if h : x = y then .isTrue (by simp [h]) else .isFalse (by simp [h])
  | .error _, .ok _ => .isFalse (by simp)
  | .ok _, .error _ => .isFalse (by simp)

/-- The observable actions of the worker spawned by
`Engine::compute_move_async`. -/
inductive EngineEvent where
  | joinedEndSignal : EngineEvent
  | setAvailable : EngineEvent
  | callback (out : Except String ComputeMoveOutput) : EngineEvent
deriving DecidableEq

/-- `perform_lookups` from `lib.rs`, with each service's reply supplied as
data: the first `Ok(Some(m))` wins, errors and misses are skipped. -/
def perform_lookups (replies : List (Except String (Option Move))) : Option Move :=
  match replies with
  | [] => none
  | .ok (some m) :: _ => some m
  | _ :: rest => perform_lookups rest

/-- `Engine::compute_move_async` from `lib.rs`: if the availability flag is
not free the call returns `false` and nothing happens; otherwise the worker
computes the output (lookup first, search on miss), optionally joins the
end signal when `wait_for_end` is set, flips availability back and invokes
the completion callback with the result.  Returns the boolean reply
together with the worker's event trace. -/
def Engine.compute_move_async (available : Bool)
    (lookupReplies : List (Except String (Option Move)))
    (searchResult : Except String SearchOutcome) (wait_for_end : Bool) :
    Bool × List EngineEvent :=
  if !available then (false, [])
  else
    let output : Except String ComputeMoveOutput :=
      match perform_lookups lookupReplies with
      | some mv => .ok ⟨mv, none⟩
      | none =>
        searchResult.map (fun outcome => ⟨outcome.best_move, some outcome⟩)
    (true,
      (if wait_for_end then [.joinedEndSignal] else []) ++
        [.setAvailable, .callback output])

/-! ## Time allocation (`timing.rs`)

Durations are modelled as rational milliseconds; Rust's `f64::round` on the
non-negative values involved is `round` on `ℚ`. -/

/-- `TimeAllocator` from `timing.rs` (the variant present in the source
tree: increment-only thinking under a clock threshold). -/
structure TimeAllocator where
  half_moves_remaining : Nat → ℚ
  latency : ℚ
  min_compute_time : ℚ
  increment_only_threshold : ℚ
  inc_used_under_threshold : ℚ

/-- `TimeAllocator::allocate` from `timing.rs`: under the threshold think
only for a fraction of the increment; otherwise spread the remaining time
over half the expected remaining half-moves and add the increment, clamped
below by the minimum compute time. -/
def TimeAllocator.allocate (a : TimeAllocator) (half_moves_played : Nat)
    (remaining_time increment : ℚ) : ℚ :=
  if remaining_time < a.increment_only_threshold ∧ 0 < increment then
    let inc := increment - min increment a.latency
    let inc : ℚ := round (inc * a.inc_used_under_threshold)
    max a.min_compute_time inc
  else
    let remaining_after_latency := remaining_time - min remaining_time a.latency
    let exp_remaining := a.half_moves_remaining half_moves_played / 2
    let estimated_no_inc : ℚ := round (remaining_after_latency / exp_remaining)
    max (estimated_no_inc + increment) a.min_compute_time

/-- Modelled from the spec: the min-clock-floor `TimeAllocator` variant of
section 4.6, which the spec fixes as the reference contract; this variant
is not in the source tree (`timing.rs` holds the other one).  Parameters:
the game-length estimator, the latency, the clock floor and the compute
floor. -/
structure MinClockFloorAllocator where
  half_moves_remaining : Nat → ℚ
  latency : ℚ
  min_clock_time : ℚ
  min_compute_time : ℚ

/-- Modelled from the spec: `allocate` of the min-clock-floor strategy —
keep `min(remaining, min_clock_time + latency)` on the clock, allocate the
rest directly when it does not exceed the increment, otherwise the
increment plus the excess spread over half the expected remaining
half-moves (rounded to whole milliseconds), clamped below by
`min_compute_time`. -/
def MinClockFloorAllocator.allocate (a : MinClockFloorAllocator)
    (half_moves_played : Nat) (remaining_time increment : ℚ) : ℚ :=
  let min_remaining_after_thinking := min remaining_time (a.min_clock_time + a.latency)
  let usable := remaining_time - min_remaining_after_thinking
  if usable ≤ increment then max a.min_compute_time usable
  else
    let extra : ℚ :=
      round ((usable - increment) / (a.half_moves_remaining half_moves_played / 2))
    max a.min_compute_time (increment + extra)

/-! ## The pseudo-legality contract as the spec states it -/

/-- The specification's wording of the pseudo-legality predicate (section 6
of the spec), stated independently of the implementation for comparison
with `is_pseudo_legal`: en-passant target matches the capture square;
castling right held with king and rook of the active side on their corner
start squares; a normal move's stated piece on `from`, `dest` holding
exactly the declared capture and reachable under the piece's move rules on
the current occupancy; a promotion's pawn of the active side on `from` with
`dest` holding the declared capture; the null move never. -/
def pseudo_legal_spec (pr : Primitives) (node : TreeNode) (m : Move) : Prop :=
  match m with
  | .Null => False
  | .Enpassant _ _ capture => node.position.enpassant = some capture
  | .Castle corner =>
    node.position.castling_rights corner = true ∧
      node.position.piece_locs (CASTLING_DETAILS corner).king_line.1 =
        some (create_piece node.position.active classK) ∧
      node.position.piece_locs (CASTLING_DETAILS corner).rook_line.1 =
        some (create_piece node.position.active classR)
  | .Normal moving src dest capture =>
    node.position.piece_locs src = some moving ∧
      node.position.piece_locs dest = capture ∧
      in_board
        (pr.board_moves moving src node.position.friendly_enemy_boards.1
          node.position.friendly_enemy_boards.2) dest = true
  | .Promote src dest capture _ =>
    node.position.piece_locs src = some (create_piece node.position.active classP) ∧
      node.position.piece_locs dest = capture

/-- C4: for every position and move, `is_pseudo_legal` holds exactly under
the per-variant conditions of the specification: en-passant target equals
the move's capture square; castling right held and king and rook on their
corner start squares; the stated piece on `from` with `dest` holding
exactly the declared capture and reachable on the current occupancy;
a pawn of the active side on `from` with `dest` holding the declared
capture; and the null move is never pseudo-legal. -/
theorem c4_is_pseudo_legal_iff_spec (pr : Primitives) (node : TreeNode) (m : Move) :
    is_pseudo_legal pr node m = true ↔ pseudo_legal_spec pr node m := by
  cases m with
  | Null => simp [is_pseudo_legal, pseudo_legal_spec]
  | Normal moving src dest capture =>
    simp [is_pseudo_legal, pseudo_legal_spec, Bool.and_eq_true, and_assoc]
  | Enpassant src dest capture =>
    simp [is_pseudo_legal, pseudo_legal_spec]
  | Castle corner =>
    simp only [is_pseudo_legal, pseudo_legal_spec, Bool.and_eq_true, beq_iff_eq]
    tauto
  | Promote src dest capture promoted =>
    simp [is_pseudo_legal, pseudo_legal_spec, Bool.and_eq_true]

/-- C10: inside a repetition cycle (some snapshot reached backwards through
repeatable moves has the current hash key) the table probe never produces a
`Hit`, whatever is stored: the entry is downgraded to an ordering
suggestion and can never short-circuit the search. -/
theorem c10_no_table_hit_in_repetition (pr : Primitives) (table : TranspositionsImpl)
    (node : TreeNode) (ctx : Context) (resp : SearchResponse)
    (hrep : has_repetition node = true) :
    do_table_lookup pr table node ctx ≠ .Hit resp := by
  unfold do_table_lookup
  match hget : table.get node.position with
  | none => simp [hget]
  | some existing =>
    simp only [hget]
    cases existing.node_type <;> simp [hrep]

/-- C6: transposition-table round trip.  With at least one bucket, a `put`
followed immediately by `get` of the same position returns exactly the
stored entry with the position's key; and in general `get` returns the
entry stored in the position's bucket precisely when that entry's stored
key equals the position's key, and nothing otherwise. -/
theorem c6_table_round_trip (t : TranspositionsImpl) (pos : Position)
    (root_index depth : Nat) (eval : Int) (node_type : NodeType) :
    (0 < t.inner.length →
      (t.put pos root_index depth eval node_type).get pos =
        some ⟨root_index, pos.key, depth, eval, node_type⟩) ∧
    (∀ entry : TableEntry,
      t.get pos = some entry ↔
        (t.inner.get? (t.index pos.key) = some (some entry) ∧ entry.key = pos.key)) := by
  constructor
  · intro hlen
    have hidx : pos.key % t.inner.length < t.inner.length := Nat.mod_lt _ hlen
    unfold TranspositionsImpl.get TranspositionsImpl.put TranspositionsImpl.index
    simp only [List.length_set]
    rw [List.get?_set_eq_of_lt _ hidx]
    simp
  · intro entry
    unfold TranspositionsImpl.get
    match hget : t.inner.get? (t.index pos.key) with
    | none => simp [hget]
    | some none => simp [hget]
    | some (some e) =>
      by_cases hk : e.key = pos.key
      · simp [hget, hk]
        intro he
        rw [← he]
        exact hk
      · simp [hget, hk]
        intro he hkey
        exact hk (by rw [he]; exact hkey)

/-- Witness for C10 at a concrete repeated position holding a deep `Cut`
entry whose move is pseudo-legal: the probe still refuses to hit. -/
theorem c10_no_table_hit_in_repetition_witness :
    do_table_lookup
      { compute_terminal_state := fun _ => none
        in_check := fun _ => false
        board_moves := fun _ _ _ _ => 2 ^ 8
        quiescent := fun _ _ b => .ok b
        make := fun n _ => n
        generate := fun _ _ => []
        should_end := fun _ => false }
      ⟨[some ⟨0, 77, 5, 100, .Cut (.Normal 1 0 8 none)⟩]⟩
      ⟨{ active := 0, enpassant := none, castling_rights := fun _ => false
         piece_locs := fun sq => if sq == 0 then some 1 else none
         piece_boards := fun _ => 0, side_boards := fun _ => 0, clock := 0
         key := 77
         history := [(⟨none, fun _ => false, none, 0, 77⟩, .Normal 1 9 10 none)] }⟩
      ⟨0, 0, 1, 1, none, false, false⟩ ≠ .Hit ⟨1, []⟩ :=
  c10_no_table_hit_in_repetition _ _ _ _ _ (by decide)

/-- Witness for C6 on a concrete two-bucket table. -/
theorem c6_table_round_trip_witness :
    (TranspositionsImpl.put ⟨[none, none]⟩
        ⟨0, none, fun _ => false, fun _ => none, fun _ => 0, fun _ => 0, 0, 7, []⟩
        3 4 5 (.Cut .Null)).get
      ⟨0, none, fun _ => false, fun _ => none, fun _ => 0, fun _ => 0, 0, 7, []⟩ =
      some ⟨3, 7, 4, 5, .Cut .Null⟩ :=
  (c6_table_round_trip ⟨[none, none]⟩ _ 3 4 5 (.Cut .Null)).1 (by decide)

/-- C9: `reposition_last` moves the last matching element (the one found by
the reversed scan) to the back, keeping the relative order of all other
elements; when nothing matches the vector is untouched. -/
theorem c9_reposition_last {α : Type} (xs : List α) (p : α → Bool) :
    ((∀ x ∈ xs, p x = false) → reposition_last xs p = xs) ∧
    ((∃ x ∈ xs, p x = true) →
      ∃ ys a zs, p a = true ∧ xs = ys ++ a :: zs ∧
        reposition_last xs p = (ys ++ zs) ++ [a]) := by
  constructor
  · intro hall
    unfold reposition_last
    have hn : xs.reverse.findIdx? p = none := by
      rw [List.findIdx?_eq_none_iff]
      intro x hx
      exact hall x (List.mem_reverse.mp hx)
    rw [hn]
  · rintro ⟨x, hx, hpx⟩
    have hsome : (xs.reverse.findIdx? p).isSome = true := by
      rw [List.findIdx?_isSome]
      exact List.any_eq_true.mpr ⟨x, List.mem_reverse.mpr hx, hpx⟩
    obtain ⟨i, hi⟩ := Option.isSome_iff_exists.mp hsome
    obtain ⟨hlt, hpi, -⟩ := List.findIdx?_eq_some_iff_getElem.mp hi
    have hin : i < xs.length := by simpa using hlt
    have hjlt : xs.length - 1 - i < xs.length := by omega
    have hrev : xs.reverse[i] = xs[xs.length - 1 - i] := by
      simp
    refine ⟨xs.take (xs.length - 1 - i), xs[xs.length - 1 - i],
      xs.drop (xs.length - 1 - i + 1), ?_, ?_, ?_⟩
    · rw [← hrev]
      exact hpi
    · conv_lhs => rw [← List.take_append_drop (xs.length - 1 - i) xs]
      rw [← List.getElem_cons_drop xs (xs.length - 1 - i) hjlt]
    · unfold reposition_last
      rw [hi]
      have hget : xs.get? (xs.length - 1 - i) = some (xs[xs.length - 1 - i]) := by
        rw [List.get?_eq_getElem?, List.getElem?_eq_getElem hjlt]
      simp only [hget, List.eraseIdx_eq_take_drop_succ, List.append_assoc]

/-- Witness for C9 on a concrete list with a duplicated match: the last
match is the one that moves. -/
theorem c9_reposition_last_witness :
    ∃ ys a zs, (a == 2) = true ∧ [1, 2, 3, 2, 4] = ys ++ a :: zs ∧
      reposition_last [1, 2, 3, 2, 4] (fun n => n == 2) = (ys ++ zs) ++ [a] :=
  (c9_reposition_last [1, 2, 3, 2, 4] (fun n => n == 2)).2
    ⟨2, by decide, by decide⟩

/-- C1: under the min-clock-floor strategy with the dummy estimator
`half_moves_remaining k = k`, `allocate(20, 40000ms, 999ms)` spreads the
usable time `40000 − (min_clock_time + latency) = 39550ms` over ten
expected own moves on top of the increment and yields exactly `4854ms`.
The spec does not fix the two floor parameters numerically; the stated
result `4854` determines their sum `min_clock_time + latency = 450` (the
historical configuration, latency `200ms` and clock floor `250ms`), which
is taken as a hypothesis. -/
theorem c1_min_clock_floor_allocate (a : MinClockFloorAllocator)
    (hest : a.half_moves_remaining = fun k : Nat => (k : ℚ))
    (hfloor : a.min_clock_time + a.latency = 450)
    (hmin : a.min_compute_time ≤ 4854) :
    a.allocate 20 40000 999 = 4854 := by
  simp only [MinClockFloorAllocator.allocate, hest, hfloor]
  rw [show min (40000 : ℚ) 450 = 450 by norm_num]
  rw [if_neg (by norm_num)]
  rw [show ((40000 : ℚ) - 450 - 999) / (((20 : Nat) : ℚ) / 2) = 38551 / 10 by norm_num]
  rw [show round ((38551 : ℚ) / 10) = 3855 by norm_num [round_eq]]
  rw [show ((999 : ℚ) + (3855 : ℤ)) = 4854 by norm_num]
  exact max_eq_right hmin

/-- Witness for C1 at the historical configuration (latency 200ms, clock
floor 250ms, compute floor 50ms). -/
theorem c1_min_clock_floor_allocate_witness :
    MinClockFloorAllocator.allocate ⟨fun k : Nat => (k : ℚ), 200, 250, 50⟩ 20 40000 999 = 4854 :=
  c1_min_clock_floor_allocate ⟨fun k : Nat => (k : ℚ), 200, 250, 50⟩ rfl (by norm_num)
    (by norm_num)

/-- The allocator actually present in `timing.rs` reproduces its own unit
test `estimated_greater_than_min`: with the dummy estimator, latency 200ms
and the increment-only threshold below the clock, the same call
`allocate(20, 40000ms, 999ms)` yields `4979ms` — not the `4854ms` of the
min-clock-floor reference strategy fixed by the spec. -/
theorem timing_allocate_estimated_greater_than_min :
    TimeAllocator.allocate ⟨fun k : Nat => (k : ℚ), 200, 1100, 100, 8/10⟩ 20 40000 999 = 4979 := by
  simp only [TimeAllocator.allocate]
  rw [if_neg (by norm_num)]
  rw [show min (40000 : ℚ) 200 = 200 by norm_num]
  rw [show ((40000 : ℚ) - 200) / (((20 : Nat) : ℚ) / 2) = 3980 by norm_num]
  rw [show round ((3980 : ℚ)) = 3980 by norm_num [round_eq]]
  rw [show (((3980 : ℤ) : ℚ) + 999) = 4979 by norm_num]
  exact max_eq_left (by norm_num)

/-- Predicate picking the completion-callback events out of a worker trace. -/
def EngineEvent.isCallback : EngineEvent → Bool
  | .callback _ => true
  | _ => false

/-- C8: `compute_move_async` returns `false` with no work performed when
the availability flag is busy (no queueing); when it returns `true`, the
worker trace contains exactly one completion callback, carrying either the
looked-up move, or the search outcome, or the search error, and the
availability flag is flipped back to free strictly before the callback
fires. -/
theorem c8_compute_move_async (available : Bool)
    (lookupReplies : List (Except String (Option Move)))
    (searchResult : Except String SearchOutcome) (wait_for_end : Bool) :
    (available = false →
      Engine.compute_move_async available lookupReplies searchResult wait_for_end =
        (false, [])) ∧
    (available = true →
      (Engine.compute_move_async available lookupReplies searchResult wait_for_end).1 =
          true ∧
        (∃ out : Except String ComputeMoveOutput,
          (Engine.compute_move_async available lookupReplies searchResult
              wait_for_end).2 =
            (if wait_for_end then [.joinedEndSignal] else []) ++
              [.setAvailable, .callback out] ∧
          ((∃ m, perform_lookups lookupReplies = some m ∧ out = .ok ⟨m, none⟩) ∨
            (perform_lookups lookupReplies = none ∧
              out = searchResult.map (fun o => ⟨o.best_move, some o⟩))) ∧
          ((Engine.compute_move_async available lookupReplies searchResult
              wait_for_end).2.countP EngineEvent.isCallback) = 1 ∧
          (∃ i j, i < j ∧
            (Engine.compute_move_async available lookupReplies searchResult
                wait_for_end).2.get? i = some .setAvailable ∧
            (Engine.compute_move_async available lookupReplies searchResult
                wait_for_end).2.get? j = some (.callback out)))) := by
  constructor
  · intro hbusy
    simp [Engine.compute_move_async, hbusy]
  · intro hfree
    subst hfree
    refine ⟨by simp [Engine.compute_move_async], ?_⟩
    refine ⟨(match perform_lookups lookupReplies with
      | some mv => .ok ⟨mv, none⟩
      | none => searchResult.map (fun o => ⟨o.best_move, some o⟩)), ?_, ?_, ?_, ?_⟩
    · cases hpl : perform_lookups lookupReplies <;>
        simp [Engine.compute_move_async, hpl]
    · cases hpl : perform_lookups lookupReplies with
      | none => exact Or.inr ⟨rfl, rfl⟩
      | some m => exact Or.inl ⟨m, rfl, rfl⟩
    · cases hpl : perform_lookups lookupReplies <;>
        cases wait_for_end <;>
          simp [Engine.compute_move_async, hpl, List.countP, List.countP.go,
            EngineEvent.isCallback]
    · cases hpl : perform_lookups lookupReplies <;> cases wait_for_end
      · exact ⟨0, 1, by norm_num, by simp [Engine.compute_move_async, hpl],
          by simp [Engine.compute_move_async, hpl]⟩
      · exact ⟨1, 2, by norm_num, by simp [Engine.compute_move_async, hpl],
          by simp [Engine.compute_move_async, hpl]⟩
      · exact ⟨0, 1, by norm_num, by simp [Engine.compute_move_async, hpl],
          by simp [Engine.compute_move_async, hpl]⟩
      · exact ⟨1, 2, by norm_num, by simp [Engine.compute_move_async, hpl],
          by simp [Engine.compute_move_async, hpl]⟩

/-- Witness for C8: a free engine whose only lookup service misses and
whose search fails with a termination error accepts the job. -/
theorem c8_compute_move_async_witness :
    (Engine.compute_move_async true [.ok none] (.error "Terminated at depth 1")
      false).1 = true :=
  ((c8_compute_move_async true [.ok none] (.error "Terminated at depth 1")
    false).2 rfl).1

/-- Once some depth has completed, the deepening loop can no longer fail:
every later error falls back to the recorded response. -/
theorem deepeningLoop_isOk_of_some
    (f : Nat → PrincipleVariation → Except String BestMoveResponse)
    (ds : List Nat) (pv : PrincipleVariation) (r : BestMoveResponse)
    (brk : String) :
    ∃ r', deepeningLoop f ds pv (some r) brk = .ok r' := by
  induction ds generalizing pv r with
  | nil => exact ⟨r, rfl⟩
  | cons d ds ih =>
    unfold deepeningLoop
    cases hf : f d pv with
    | error e => exact ⟨r, by simp⟩
    | ok r2 =>
      simp only []
      by_cases hw : (r2.eval.natAbs == WIN_VALUE.natAbs) = true
      · rw [if_pos hw]
        exact ⟨r2, rfl⟩
      · rw [if_neg hw]
        exact ih ⟨r2.path⟩ r2

/-- C7: the iterative-deepening search errors exactly when no depth
completes — a completed depth with an empty path (no legal moves) is
reported as an error by `best_move_of`, a depth whose tree search errors
(end signal) propagates that error when it is the first depth, and once
any depth has completed, a later failing depth returns the last completed
response instead of an error. -/
theorem c7_iterative_deepening_errors
    (f : Nat → PrincipleVariation → Except String BestMoveResponse)
    (maxDepth : Nat) :
    (∀ (depth : Nat) (r : SearchResponse),
      (∃ e, best_move_of depth (.ok r) = .error e) ↔ r.path = []) ∧
    ((∃ e, Search.search f maxDepth = .error e) ↔
      (maxDepth = 0 ∨ ∃ e, f 1 ⟨[]⟩ = .error e)) ∧
    (∀ (ds : List Nat) (d : Nat) (pv : PrincipleVariation)
      (r : BestMoveResponse) (brk : String) (e : String),
      f d pv = .error e →
        deepeningLoop f (d :: ds) pv (some r) brk = .ok r) := by
  refine ⟨?_, ?_, ?_⟩
  · intro depth r
    cases hp : r.path with
    | nil => simp [best_move_of, hp]
    | cons a as => simp [best_move_of, hp]
  · unfold Search.search
    cases maxDepth with
    | zero => simp [deepeningLoop]
    | succ n =>
      rw [List.range_succ_eq_map]
      simp only [List.map_cons, List.map_map, Nat.zero_add]
      cases hf : f 1 ⟨[]⟩ with
      | error e =>
        simp [deepeningLoop, hf]
      | ok r =>
        simp only [deepeningLoop, hf]
        by_cases hw : (r.eval.natAbs == WIN_VALUE.natAbs) = true
        · rw [if_pos hw]
          simp [hf]
        · rw [if_neg hw]
          obtain ⟨r', hr'⟩ := deepeningLoop_isOk_of_some f _ ⟨r.path⟩ r _
          rw [hr']
          simp [hf]
  · intro ds d pv r brk e hf
    simp [deepeningLoop, hf]

/-- Witness for C7: a searcher that fails at every depth still returns the
previously completed response when one is recorded. -/
theorem c7_iterative_deepening_errors_witness :
    deepeningLoop (fun _ _ => .error "stop") [2, 3] ⟨[]⟩
      (some ⟨5, .Null, [.Null], 1⟩) "before" = .ok ⟨5, .Null, [.Null], 1⟩ :=
  (c7_iterative_deepening_errors (fun _ _ => .error "stop") 0).2.2 [3] 2 ⟨[]⟩
    ⟨5, .Null, [.Null], 1⟩ "before" "stop" rfl

/-! ## Fail-hard bounds of the tree search (C3) -/

/-- The lower bound a phase's result must respect: the entry alpha of the
node, respectively the alpha at which the surrounding node entered its
move loop. -/
def SearchPhase.low : SearchPhase → Int
  | .node _ ctx => ctx.alpha
  | .loop _ _ startAlpha _ _ _ _ => startAlpha
  | .update _ _ startAlpha _ _ _ _ _ _ _ => startAlpha
  | .step2 _ _ startAlpha _ _ _ _ _ => startAlpha
  | .post _ _ startAlpha _ _ => startAlpha

/-- The upper bound a phase's result must respect: the node's beta. -/
def SearchPhase.high : SearchPhase → Int
  | .node _ ctx => ctx.beta
  | .loop _ ctx _ _ _ _ _ => ctx.beta
  | .update _ ctx _ _ _ _ _ _ _ _ => ctx.beta
  | .step2 _ ctx _ _ _ _ _ _ => ctx.beta
  | .post _ ctx _ _ _ => ctx.beta

/-- The data invariant each phase maintains: the window is non-empty, and
inside the move loop the running alpha lies between the entry alpha and
beta (between the cutoff check of `step2` and the next iteration it may
temporarily exceed beta, in which case `step2` exits with beta). -/
def SearchPhase.inv : SearchPhase → Prop
  | .node _ ctx => ctx.alpha ≤ ctx.beta
  | .loop _ ctx startAlpha _ _ _ v => startAlpha ≤ v.alpha ∧ v.alpha ≤ ctx.beta
  | .update _ ctx startAlpha _ _ _ v _ _ _ => startAlpha ≤ v.alpha ∧ v.alpha ≤ ctx.beta
  | .step2 _ ctx startAlpha _ _ _ w _ => startAlpha ≤ w.alpha ∧ startAlpha ≤ ctx.beta
  | .post _ ctx startAlpha _ v => startAlpha ≤ v.alpha ∧ v.alpha ≤ ctx.beta

/-- The quiescence collaborator is fail-hard, as section 7 of the spec
requires of the whole framework ("callers never see out-of-window
values"). -/
def QuiescentFailHard (pr : Primitives) : Prop :=
  ∀ (node : TreeNode) (a b e : Int), a ≤ b →
    pr.quiescent node a b = .ok e → a ≤ e ∧ e ≤ b

/-- A table hit is always clamped into the probing window. -/
theorem do_table_lookup_hit_bounds (pr : Primitives) (table : TranspositionsImpl)
    (node : TreeNode) (ctx : Context) (resp : SearchResponse)
    (hw : ctx.alpha ≤ ctx.beta)
    (hhit : do_table_lookup pr table node ctx = .Hit resp) :
    ctx.alpha ≤ resp.eval ∧ resp.eval ≤ ctx.beta := by
  unfold do_table_lookup at hhit
  repeat' split at hhit
  all_goals simp only [TableLookup.Suggestion.injEq, TableLookup.Hit.injEq,
    reduceCtorEq] at hhit
  all_goals first
  | (subst hhit
     exact ⟨le_min hw (le_max_left _ _), min_le_left _ _⟩)
  | (subst hhit
     exact ⟨hw, le_refl _⟩)
  | (subst hhit
     exact ⟨le_refl _, hw⟩)

/-- Injectivity of successful step results. -/
theorem run_ok_inj {a r : SearchResponse} {b s : SearcherState}
    (h : (Except.ok (a, b) : Except String (SearchResponse × SearcherState)) =
      .ok (r, s)) : a = r ∧ b = s := by
  have h' := h
  simp only [Except.ok.injEq, Prod.mk.injEq] at h'
  exact h'

/-- Fail-hard invariant of the step family: whatever phase is entered with
its invariant satisfied, an `.ok` result lies within the phase's window. -/
theorem run_ok_bounds (pr : Primitives) (pv : PrincipleVariation)
    (hq : QuiescentFailHard pr) :
    ∀ (fuel : Nat) (st : SearcherState) (ph : SearchPhase)
      (r : SearchResponse) (st' : SearcherState),
      ph.inv → run pr pv fuel st ph = .ok (r, st') →
      ph.low ≤ r.eval ∧ r.eval ≤ ph.high := by
  intro fuel
  induction fuel with
  | zero =>
    intro st ph r st' _ hrun
    simp [run] at hrun
  | succ n ih =>
    intro st ph r st' hinv hrun
    cases ph with
    | node node ctx =>
      simp only [run] at hrun
      simp only [SearchPhase.inv] at hinv
      simp only [SearchPhase.low, SearchPhase.high]
      split at hrun
      · simp at hrun
      · split at hrun
        · -- horizon or terminal state
          split at hrun
          · obtain ⟨rfl, rfl⟩ := run_ok_inj hrun
            exact ⟨le_max_left _ _, max_le hinv (min_le_left _ _)⟩
          · obtain ⟨rfl, rfl⟩ := run_ok_inj hrun
            exact ⟨le_max_left _ _, max_le hinv (min_le_left _ _)⟩
          · split at hrun
            · simp at hrun
            · rename_i ev hqe
              obtain ⟨rfl, rfl⟩ := run_ok_inj hrun
              exact hq node ctx.alpha ctx.beta ev hinv hqe
        · -- interior node
          split at hrun
          · rename_i response hhit
            obtain ⟨rfl, rfl⟩ := run_ok_inj hrun
            exact do_table_lookup_hit_bounds pr _ node ctx _ hinv hhit
          · -- table miss
            split at hrun
            · split at hrun
              · simp at hrun
              · split at hrun
                · obtain ⟨rfl, rfl⟩ := run_ok_inj hrun
                  exact ⟨hinv, le_refl _⟩
                · split at hrun
                  · simp at hrun
                  · refine ih _ _ r st' ?_ hrun
                    exact ⟨le_refl _, hinv⟩
            · split at hrun
              · simp at hrun
              · refine ih _ _ r st' ?_ hrun
                exact ⟨le_refl _, hinv⟩
          · -- suggestion kept for ordering
            split at hrun
            · split at hrun
              · simp at hrun
              · split at hrun
                · obtain ⟨rfl, rfl⟩ := run_ok_inj hrun
                  exact ⟨hinv, le_refl _⟩
                · split at hrun
                  · simp at hrun
                  · refine ih _ _ r st' ?_ hrun
                    exact ⟨le_refl _, hinv⟩
            · split at hrun
              · simp at hrun
              · refine ih _ _ r st' ?_ hrun
                exact ⟨le_refl _, hinv⟩
    | loop node ctx startAlpha isPvNode inCheck mvs v =>
      simp only [run] at hrun
      simp only [SearchPhase.inv] at hinv
      simp only [SearchPhase.low, SearchPhase.high]
      split at hrun
      · split at hrun
        · split at hrun
          · simp at hrun
          · refine ih _ _ r st' ?_ hrun
            exact hinv
        · split at hrun
          · simp at hrun
          · split at hrun
            · split at hrun
              · simp at hrun
              · refine ih _ _ r st' ?_ hrun
                exact hinv
            · refine ih _ _ r st' ?_ hrun
              exact hinv
      · refine ih _ _ r st' ?_ hrun
        exact hinv
    | update node ctx startAlpha isPvNode inCheck mvs v rr m resp =>
      simp only [run] at hrun
      simp only [SearchPhase.inv] at hinv
      simp only [SearchPhase.low, SearchPhase.high]
      split at hrun
      · split at hrun
        · refine ih _ _ r st' ?_ hrun
          exact hinv
        · split at hrun
          · rename_i hra
            refine ih _ _ r st' ?_ hrun
            exact ⟨le_trans hinv.1 (le_of_lt hra), le_trans hinv.1 hinv.2⟩
          · refine ih _ _ r st' ?_ hrun
            exact ⟨hinv.1, le_trans hinv.1 hinv.2⟩
      · refine ih _ _ r st' ?_ hrun
        exact ⟨hinv.1, le_trans hinv.1 hinv.2⟩
    | step2 node ctx startAlpha isPvNode inCheck mvs w m =>
      simp only [run] at hrun
      simp only [SearchPhase.inv] at hinv
      simp only [SearchPhase.low, SearchPhase.high]
      split at hrun
      · obtain ⟨rfl, rfl⟩ := run_ok_inj hrun
        exact ⟨hinv.2, le_refl _⟩
      · rename_i hnc
        split at hrun
        · refine ih _ _ r st' ?_ hrun
          exact ⟨hinv.1, le_of_not_le hnc⟩
        · refine ih _ _ r st' ?_ hrun
          exact ⟨hinv.1, le_of_not_le hnc⟩
    | post node ctx startAlpha isPvNode v =>
      simp only [run] at hrun
      simp only [SearchPhase.inv] at hinv
      simp only [SearchPhase.low, SearchPhase.high]
      split at hrun
      · refine ih _ _ r st' ?_ hrun
        exact le_trans hinv.1 hinv.2
      · split at hrun
        · obtain ⟨rfl, rfl⟩ := run_ok_inj hrun
          exact hinv
        · split at hrun
          · simp at hrun
          · obtain ⟨rfl, rfl⟩ := run_ok_inj hrun
            exact hinv

/-- C3: fail-hard alpha-beta.  For every node and context with a non-empty
window, whenever the tree search returns successfully the returned eval
lies in `[alpha, beta]`: terminal scores are clamped, beta- and null-move
cutoffs return exactly beta, table hits are clamped, and a completed move
loop returns its final alpha (the quiescence collaborator is assumed
fail-hard, as section 7 of the spec requires). -/
theorem c3_search_fail_hard (pr : Primitives) (pv : PrincipleVariation)
    (fuel : Nat) (st : SearcherState) (node : TreeNode) (ctx : Context)
    (r : SearchResponse) (st' : SearcherState)
    (hq : QuiescentFailHard pr) (hw : ctx.alpha ≤ ctx.beta)
    (hok : TreeSearcher.search pr pv fuel st node ctx = .ok (r, st')) :
    ctx.alpha ≤ r.eval ∧ r.eval ≤ ctx.beta :=
  run_ok_bounds pr pv hq fuel st (.node node ctx) r st' hw hok

/-- A stand-pat-only quiescence oracle over an empty board, used to witness
the search theorems on concrete runs. -/
def standPatPrimitives : Primitives :=
  { compute_terminal_state := fun _ => none
    in_check := fun _ => false
    board_moves := fun _ _ _ _ => 0
    quiescent := fun _ a _ => .ok a
    make := fun n _ => n
    generate := fun _ _ => []
    should_end := fun _ => false }

/-- The stand-pat quiescence oracle is fail-hard. -/
theorem standPatPrimitives_fail_hard : QuiescentFailHard standPatPrimitives := by
  intro nd a b e hab hok
  simp only [standPatPrimitives] at hok
  injection hok with h
  subst h
  exact ⟨le_refl _, hab⟩

/-- A featureless position used by the concrete witnesses. -/
def emptyPosition : Position :=
  { active := 0
    enpassant := none
    castling_rights := fun _ => false
    piece_locs := fun _ => none
    piece_boards := fun _ => 0
    side_boards := fun _ => 0
    clock := 0
    key := 0
    history := [] }

/-- Witness for C3: a depth-0 call on the stand-pat oracle returns the
stand-pat score, which the theorem places inside the window `[0, 5]`. -/
theorem c3_search_fail_hard_witness : (0 : Int) ≤ 0 ∧ (0 : Int) ≤ 5 :=
  c3_search_fail_hard standPatPrimitives ⟨[]⟩ 1 ⟨⟨[none]⟩, 0, 0, 0, false⟩
    ⟨emptyPosition⟩ ⟨0, 0, 5, 0, none, false, false⟩ ⟨0, []⟩
    ⟨⟨[none]⟩, 1, 0, 0, true⟩ standPatPrimitives_fail_hard (by norm_num)
    (by decide)

/-- The PV-node classification of `TreeSearcher::search` (search/search.rs):
root window, on the principal variation, a known alpha-raiser, or a `Pv`
table suggestion. -/
def isPvNode (ctx : Context) (table_entry : Option NodeType) : Bool :=
  (ctx.alpha == -INFTY) || ctx.on_pv || ctx.known_raise_alpha.isSome ||
    (match table_entry with | some (.Pv _) => true | _ => false)

/-- The ordering suggestion a non-hit table probe leaves behind
(search/search.rs: `TableLookup::Suggestion(n) => Some(n)`, nothing
otherwise). -/
def tableEntryOf : TableLookup → Option NodeType
  | .Suggestion n => some n
  | _ => none

/-- The move-loop continuation of `TreeSearcher::search`: generate and
order the moves, then iterate them from fresh loop variables.  This is
what the node runs when null-move pruning is not attempted, and the
fall-through when an attempted null move fails low. -/
def moveLoopFrom (pr : Primitives) (pv : PrincipleVariation) (fuel : Nat)
    (stp : SearcherState) (node : TreeNode) (ctx : Context)
    (table_entry : Option NodeType) (is_pv_node : Bool) :
    Except String (SearchResponse × SearcherState) :=
  match generate_moves pr pv node ctx table_entry with
  | .error e => .error e
  | .ok mvs =>
    run pr pv fuel stp
      (.loop node ctx ctx.alpha is_pv_node (pr.in_check node.position) mvs
        ⟨ctx.alpha, 0, false, [], false, -INFTY⟩)

/-- The null-move block of `TreeSearcher::search`: apply the null move,
search with depth reduced by `max(MIN_NULL_MOVE_REDUCTION, depth / 3)`
over the window `[-beta, -beta + 1]`; a score of at least beta fails high
with an empty path, otherwise the move loop runs. -/
def nullMoveAttempt (pr : Primitives) (pv : PrincipleVariation) (fuel : Nat)
    (st2 : SearcherState) (node : TreeNode) (ctx : Context)
    (table_entry : Option NodeType) (is_pv_node : Bool) :
    Except String (SearchResponse × SearcherState) :=
  match run pr pv fuel st2
    (.node (pr.make node .Null)
      (ctx.next (-ctx.beta) (-ctx.beta + 1) .Null
        (max MIN_NULL_MOVE_REDUCTION (ctx.depth / 3)) false)) with
  | .error e => .error e
  | .ok (resp, st3) =>
    if ctx.beta ≤ -resp.eval then .ok (⟨ctx.beta, []⟩, st3)
    else moveLoopFrom pr pv fuel st3 node ctx table_entry is_pv_node

/-- At an interior node (poll quiet, non-terminal, positive depth, probe
not a hit) the search is exactly the gate dispatch: the null-move block
runs precisely when the node is classified non-PV, the previous ply was
not itself a null move and the zugzwang guard holds; in every other case
the move loop runs directly, so the null-move child is never consulted. -/
theorem run_null_gate_dispatch (pr : Primitives) (pv : PrincipleVariation)
    (fuel : Nat) (st : SearcherState) (node : TreeNode) (ctx : Context)
    (hpoll : (pollEnd pr (pvTrack st ctx)).2 = false)
    (hterm : pr.compute_terminal_state node.position = none)
    (hdepth : ctx.depth ≠ 0)
    (hnohit : ∀ resp,
      do_table_lookup pr ((pollEnd pr (pvTrack st ctx)).1).table node ctx ≠
        .Hit resp) :
    TreeSearcher.search pr pv (fuel + 1) st node ctx =
      (if (!isPvNode ctx (tableEntryOf
            (do_table_lookup pr ((pollEnd pr (pvTrack st ctx)).1).table node ctx)) &&
          !ctx.null_move_last && should_try_null_move_pruning pr node) = true then
        nullMoveAttempt pr pv fuel ((pollEnd pr (pvTrack st ctx)).1) node ctx
          (tableEntryOf
            (do_table_lookup pr ((pollEnd pr (pvTrack st ctx)).1).table node ctx))
          (isPvNode ctx (tableEntryOf
            (do_table_lookup pr ((pollEnd pr (pvTrack st ctx)).1).table node ctx)))
      else
        moveLoopFrom pr pv fuel ((pollEnd pr (pvTrack st ctx)).1) node ctx
          (tableEntryOf
            (do_table_lookup pr ((pollEnd pr (pvTrack st ctx)).1).table node ctx))
          (isPvNode ctx (tableEntryOf
            (do_table_lookup pr ((pollEnd pr (pvTrack st ctx)).1).table node ctx)))) := by
  unfold TreeSearcher.search
  simp only [run]
  rw [if_neg (show ¬((pollEnd pr (pvTrack st ctx)).2 = true) by simp [hpoll])]
  rw [if_neg (show ¬((ctx.depth == 0 ||
    (pr.compute_terminal_state node.position).isSome) = true) by
      simp [hterm, hdepth])]
  cases hcase : do_table_lookup pr ((pollEnd pr (pvTrack st ctx)).1).table node ctx with
  | Miss =>
    simp only [hcase]
    rfl
  | Suggestion n =>
    simp only [hcase]
    rfl
  | Hit r => exact absurd hcase (hnohit r)

/-- C5: null-move pruning is attempted exactly when the node is classified
non-PV (alpha above `-INFTY`, not on the principal variation, no known
alpha-raiser, no `Pv` table suggestion), the previous ply was not itself a
null move, and the zugzwang guard holds — the guard holding exactly when
the side to move is not in check with more than two pawns and more than
one non-pawn piece.  At every interior node the search equals the gate
dispatch (the null-move block exactly under the gate, the bare move loop
otherwise, so no null move is consulted at PV nodes, after a null move, or
when the guard fails); and the attempted null move is searched with depth
reduced by `max(5, depth / 3)` over `[-beta, -beta + 1]`, a score of at
least beta returning beta with an empty path. -/
theorem c5_null_move_pruning (pr : Primitives) (pv : PrincipleVariation)
    (fuel : Nat) (st : SearcherState) (node : TreeNode) (ctx : Context)
    (resp : SearchResponse) (st3 : SearcherState) :
    (should_try_null_move_pruning pr node = true ↔
      (pr.in_check node.position = false ∧
        2 < count_ones (node.position.piece_boards
          (create_piece node.position.active classP)) ∧
        1 < count_ones (Nat.land (node.position.side_boards node.position.active)
          (bit_not64 (node.position.piece_boards
            (create_piece node.position.active classP)))))) ∧
    ((pollEnd pr (pvTrack st ctx)).2 = false →
      pr.compute_terminal_state node.position = none →
      ctx.depth ≠ 0 →
      (∀ r, do_table_lookup pr ((pollEnd pr (pvTrack st ctx)).1).table node ctx ≠
        .Hit r) →
      TreeSearcher.search pr pv (fuel + 1) st node ctx =
        (if (!isPvNode ctx (tableEntryOf
              (do_table_lookup pr ((pollEnd pr (pvTrack st ctx)).1).table node ctx)) &&
            !ctx.null_move_last && should_try_null_move_pruning pr node) = true then
          nullMoveAttempt pr pv fuel ((pollEnd pr (pvTrack st ctx)).1) node ctx
            (tableEntryOf
              (do_table_lookup pr ((pollEnd pr (pvTrack st ctx)).1).table node ctx))
            (isPvNode ctx (tableEntryOf
              (do_table_lookup pr ((pollEnd pr (pvTrack st ctx)).1).table node ctx)))
        else
          moveLoopFrom pr pv fuel ((pollEnd pr (pvTrack st ctx)).1) node ctx
            (tableEntryOf
              (do_table_lookup pr ((pollEnd pr (pvTrack st ctx)).1).table node ctx))
            (isPvNode ctx (tableEntryOf
              (do_table_lookup pr ((pollEnd pr (pvTrack st ctx)).1).table node ctx))))) ∧
    ((pollEnd pr (pvTrack st ctx)).2 = false →
      pr.compute_terminal_state node.position = none →
      ctx.depth ≠ 0 →
      (∀ r, do_table_lookup pr ((pollEnd pr (pvTrack st ctx)).1).table node ctx ≠
        .Hit r) →
      isPvNode ctx (tableEntryOf
        (do_table_lookup pr ((pollEnd pr (pvTrack st ctx)).1).table node ctx)) = false →
      ctx.null_move_last = false →
      should_try_null_move_pruning pr node = true →
      run pr pv fuel ((pollEnd pr (pvTrack st ctx)).1)
        (.node (pr.make node .Null)
          (ctx.next (-ctx.beta) (-ctx.beta + 1) .Null
            (max MIN_NULL_MOVE_REDUCTION (ctx.depth / 3)) false)) = .ok (resp, st3) →
      ctx.beta ≤ -resp.eval →
      TreeSearcher.search pr pv (fuel + 1) st node ctx = .ok (⟨ctx.beta, []⟩, st3)) := by
  refine ⟨?_, ?_, ?_⟩
  · unfold should_try_null_move_pruning
    simp [Bool.and_eq_true, and_assoc]
  · intro hpoll hterm hdepth hnohit
    exact run_null_gate_dispatch pr pv fuel st node ctx hpoll hterm hdepth hnohit
  · intro hpoll hterm hdepth hnohit hP hnml hguard hchild hbeta
    rw [run_null_gate_dispatch pr pv fuel st node ctx hpoll hterm hdepth hnohit]
    rw [if_pos (by simp [hP, hnml, hguard])]
    unfold nullMoveAttempt
    simp only [hchild]
    rw [if_pos hbeta]

/-- A position with three pawns and two other pieces for the side to move,
satisfying the zugzwang guard. -/
def nullMovePosition : Position :=
  { active := 0
    enpassant := none
    castling_rights := fun _ => false
    piece_locs := fun _ => none
    piece_boards := fun p => if p == 0 then 7 else 0
    side_boards := fun s => if s == 0 then 31 else 0
    clock := 0
    key := 5
    history := [] }

/-- On the concrete witness instance the table probe misses. -/
theorem nullMoveWitnessProbeMiss :
    do_table_lookup standPatPrimitives
      ((pollEnd standPatPrimitives
        (pvTrack ⟨⟨[none]⟩, 0, 0, 0, false⟩ ⟨0, 0, 1, 1, none, false, false⟩)).1).table
      ⟨nullMovePosition⟩ ⟨0, 0, 1, 1, none, false, false⟩ = .Miss := by
  decide

/-- Witness for C5: on the concrete guard-satisfying position the null
move fires, its reduced-depth search fails high, and the node returns beta
with an empty path. -/
theorem c5_null_move_pruning_witness :
    TreeSearcher.search standPatPrimitives ⟨[]⟩ 3 ⟨⟨[none]⟩, 0, 0, 0, false⟩
      ⟨nullMovePosition⟩ ⟨0, 0, 1, 1, none, false, false⟩ =
      .ok (⟨1, []⟩, ⟨⟨[none]⟩, 2, 0, 0, true⟩) :=
  (c5_null_move_pruning standPatPrimitives ⟨[]⟩ 2 ⟨⟨[none]⟩, 0, 0, 0, false⟩
    ⟨nullMovePosition⟩ ⟨0, 0, 1, 1, none, false, false⟩ ⟨-1, []⟩
    ⟨⟨[none]⟩, 2, 0, 0, true⟩).2.2 (by decide) (by decide) (by decide)
    (fun r h => absurd (nullMoveWitnessProbeMiss.symm.trans h)
      (fun hc => TableLookup.noConfusion hc))
    (by decide) (by decide) (by decide) (by decide) (by decide)

/-- When the poll does not fire, the position is non-terminal, depth is
positive and the table probe hits, the search returns the hit response
directly. -/
theorem search_step_table_hit (pr : Primitives) (pv : PrincipleVariation)
    (fuel : Nat) (st : SearcherState) (node : TreeNode) (ctx : Context)
    (response : SearchResponse)
    (hpoll : (pollEnd pr (pvTrack st ctx)).2 = false)
    (hterm : pr.compute_terminal_state node.position = none)
    (hdepth : ctx.depth ≠ 0)
    (hhit : do_table_lookup pr ((pollEnd pr (pvTrack st ctx)).1).table node ctx =
      .Hit response) :
    TreeSearcher.search pr pv (fuel + 1) st node ctx =
      .ok (response, (pollEnd pr (pvTrack st ctx)).1) := by
  unfold TreeSearcher.search
  simp only [run]
  rw [if_neg (show ¬((pollEnd pr (pvTrack st ctx)).2 = true) by simp [hpoll])]
  rw [if_neg (show ¬((ctx.depth == 0 ||
    (pr.compute_terminal_state node.position).isSome) = true) by
      simp [hterm, hdepth])]
  simp only [hhit]

/-- C2 (amended): table-driven cutoffs.  At a non-terminal node of positive
depth whose bucket holds an entry for the position: a `Cut(m)` entry with
stored depth at least the current depth, stored eval at least beta, a
pseudo-legal `m` and no repetition in the history makes the search return
beta with an empty path; an `All(m)` entry with stored eval at most alpha
under the same side conditions makes it return the current alpha (not the
stored eval) with an empty path; and whenever the probe does not hit, the
entry is passed on only as the move-ordering suggestion. -/
theorem c2_table_cutoffs (pr : Primitives) (pv : PrincipleVariation)
    (fuel : Nat) (st : SearcherState) (node : TreeNode) (ctx : Context)
    (entry : TableEntry) (m : Move) (table : TranspositionsImpl) :
    ((pollEnd pr (pvTrack st ctx)).2 = false →
      pr.compute_terminal_state node.position = none →
      ctx.depth ≠ 0 →
      ((pollEnd pr (pvTrack st ctx)).1).table.get node.position = some entry →
      entry.node_type = .Cut m →
      has_repetition node = false →
      ctx.depth ≤ entry.depth →
      ctx.beta ≤ entry.eval →
      is_pseudo_legal pr node m = true →
      TreeSearcher.search pr pv (fuel + 1) st node ctx =
        .ok (⟨ctx.beta, []⟩, (pollEnd pr (pvTrack st ctx)).1)) ∧
    ((pollEnd pr (pvTrack st ctx)).2 = false →
      pr.compute_terminal_state node.position = none →
      ctx.depth ≠ 0 →
      ((pollEnd pr (pvTrack st ctx)).1).table.get node.position = some entry →
      entry.node_type = .All m →
      has_repetition node = false →
      ctx.depth ≤ entry.depth →
      entry.eval ≤ ctx.alpha →
      is_pseudo_legal pr node m = true →
      TreeSearcher.search pr pv (fuel + 1) st node ctx =
        .ok (⟨ctx.alpha, []⟩, (pollEnd pr (pvTrack st ctx)).1)) ∧
    (table.get node.position = some entry →
      (∀ resp, do_table_lookup pr table node ctx ≠ .Hit resp) →
      do_table_lookup pr table node ctx = .Suggestion entry.node_type) := by
  refine ⟨?_, ?_, ?_⟩
  · intro hpoll hterm hdepth hget hnt hrep hd hb hpl
    refine search_step_table_hit pr pv fuel st node ctx _ hpoll hterm hdepth ?_
    unfold do_table_lookup
    simp only [hget, hnt]
    rw [if_pos (by simp [hrep, hd, hb, hpl])]
  · intro hpoll hterm hdepth hget hnt hrep hd hb hpl
    refine search_step_table_hit pr pv fuel st node ctx _ hpoll hterm hdepth ?_
    unfold do_table_lookup
    simp only [hget, hnt]
    rw [if_pos (by simp [hrep, hd, hb, hpl])]
  · intro hget hnohit
    unfold do_table_lookup
    simp only [hget]
    split
    · rename_i path hnt
      split
      · rename_i hcond
        refine absurd ?_ (hnohit ⟨min ctx.beta (max ctx.alpha entry.eval), path⟩)
        unfold do_table_lookup
        simp only [hget, hnt, hcond, if_true]
      · rw [hnt]
    · rename_i m2 hnt
      split
      · rename_i hcond
        refine absurd ?_ (hnohit ⟨ctx.beta, []⟩)
        unfold do_table_lookup
        simp only [hget, hnt, hcond, if_true]
      · rw [hnt]
    · rename_i m2 hnt
      split
      · rename_i hcond
        refine absurd ?_ (hnohit ⟨ctx.alpha, []⟩)
        unfold do_table_lookup
        simp only [hget, hnt, hcond, if_true]
      · rw [hnt]

/-- The table-suggested cut move of the repetition scenario. -/
def repetitionCutMove : Move := .Normal 1 0 8 none

/-- A position whose immediately preceding (repeatable) move leads back to
a snapshot with the same hash key — a repetition cycle. -/
def repetitionPosition : Position :=
  { active := 0
    enpassant := none
    castling_rights := fun _ => false
    piece_locs := fun sq => if sq == 0 then some 1 else none
    piece_boards := fun _ => 0
    side_boards := fun _ => 0
    clock := 0
    key := 77
    history := [(⟨none, fun _ => false, none, 0, 77⟩, .Normal 1 9 10 none)] }

/-- A deep `Cut` entry for the repetition position whose stored eval is far
above beta. -/
def repetitionEntry : TableEntry := ⟨0, 77, 5, 100, .Cut repetitionCutMove⟩

/-- A one-bucket table holding the cut entry. -/
def repetitionTable : TranspositionsImpl := ⟨[some repetitionEntry]⟩

/-- Primitives under which the cut move is pseudo-legal and the single
generated reply keeps the score at the window bottom. -/
def repetitionPrimitives : Primitives :=
  { compute_terminal_state := fun _ => none
    in_check := fun _ => false
    board_moves := fun _ _ _ _ => 2 ^ 8
    quiescent := fun _ _ b => .ok b
    make := fun n _ => n
    generate := fun _ _ => [⟨repetitionCutMove, false⟩]
    should_end := fun _ => false }

/-- The probing context of the repetition scenario: window `[0, 1]`,
depth 1. -/
def repetitionContext : Context :=
  { root_index := 0, alpha := 0, beta := 1, depth := 1
    known_raise_alpha := none, null_move_last := false, on_pv := false }

/-- Counterexample to C2 as stated: the bucket holds `Cut(m)` with stored
depth `5 ≥ 1`, stored eval `100 ≥ beta = 1`, and `m` pseudo-legal — every
condition the claim lists — yet, the position being a repetition, the
search does not return beta with an empty path: it runs the move loop and
returns eval `0` with the path `[m]`. -/
theorem c2_counterexample :
    repetitionTable.get repetitionPosition = some repetitionEntry ∧
    repetitionEntry.node_type = .Cut repetitionCutMove ∧
    repetitionContext.depth ≤ repetitionEntry.depth ∧
    repetitionContext.beta ≤ repetitionEntry.eval ∧
    is_pseudo_legal repetitionPrimitives ⟨repetitionPosition⟩ repetitionCutMove = true ∧
    repetitionPrimitives.compute_terminal_state repetitionPosition = none ∧
    repetitionContext.depth = 1 ∧ repetitionContext.beta = 1 ∧
    has_repetition ⟨repetitionPosition⟩ = true ∧
    (TreeSearcher.search repetitionPrimitives ⟨[]⟩ 8
        ⟨repetitionTable, 0, 0, 0, false⟩ ⟨repetitionPosition⟩
        repetitionContext).map (fun x => (x.1.eval, x.1.path)) =
      .ok (0, [repetitionCutMove]) ∧
    ((0 : Int), [repetitionCutMove]) ≠
      ((1 : Int), ([] : List Move)) := by
  decide

/-- The repetition position with a cleared history: no repetition, so the
cut entry now produces the fail-high the amended C2 describes. -/
def noRepetitionPosition : Position :=
  { active := 0
    enpassant := none
    castling_rights := fun _ => false
    piece_locs := fun sq => if sq == 0 then some 1 else none
    piece_boards := fun _ => 0
    side_boards := fun _ => 0
    clock := 0
    key := 77
    history := [] }

/-- Witness for the amended C2 on the concrete cut entry without a
repetition: the search returns beta with an empty path. -/
theorem c2_table_cutoffs_witness :
    TreeSearcher.search repetitionPrimitives ⟨[]⟩ 8
      ⟨repetitionTable, 0, 0, 0, false⟩ ⟨noRepetitionPosition⟩ repetitionContext =
      .ok (⟨1, []⟩,
        (pollEnd repetitionPrimitives
          (pvTrack ⟨repetitionTable, 0, 0, 0, false⟩ repetitionContext)).1) :=
  (c2_table_cutoffs repetitionPrimitives ⟨[]⟩ 7 ⟨repetitionTable, 0, 0, 0, false⟩
    ⟨noRepetitionPosition⟩ repetitionContext repetitionEntry repetitionCutMove
    repetitionTable).1 (by decide) (by decide) (by decide) (by decide) (by decide)
    (by decide) (by decide) (by decide) (by decide)
